import Mathlib

/-!
Shallow embedding of the Quantum DAO Simulator smart contract
(src/contracts/quantum-dao/src/lib.rs) and proofs about its operations.

Addresses are modelled as naturals, managed buffers as lists of bytes,
EGLD amounts (BigUint) as unbounded naturals, and u64/u32 quantities as
naturals with explicit overflow checks where the contract performs
machine arithmetic.
-/

namespace QuantumDao

/-- Cap for u64 values: a u64 holds exactly the naturals below this. -/
def U64CAP : Nat := 2 ^ 64

/-- Cap for u32 values. -/
def U32CAP : Nat := 2 ^ 32

/-- One base denomination unit of EGLD, the constant
1_000_000_000_000_000_000 used in the score computation of vote. -/
def UNIT : Nat := 1000000000000000000

/-- The Proposal struct of the contract. -/
structure Proposal where
  id : Nat
  creator : Nat
  title : List Nat
  description : List Nat
  votes_for : Nat
  votes_against : Nat
  start_block : Nat
  end_block : Nat
  executed : Bool
deriving DecidableEq

/-- The Vote struct of the contract. -/
structure Vote where
  voter : Nat
  proposal_id : Nat
  vote_for : Bool
  stake_amount : Nat
  block_number : Nat
deriving DecidableEq

/-- Abort causes: one constructor per require! message of the contract,
plus an overflow abort for checked machine arithmetic. -/
inductive Err where
  | gameEnded
  | gameStillActive
  | zeroStake
  | proposalNotFound
  | votingNotStarted
  | votingEnded
  | alreadyVoted
  | votingStillActive
  | alreadyExecuted
  | alreadyClaimed
  | noScore
  | notEligible
  | overflow
deriving DecidableEq

/-- The user_votes storage mapper, keyed by (proposal_id, voter). -/
def VoteTable : Type := List ((Nat × Nat) × Vote)

/-- Reading the user_votes mapper at key (proposal_id, voter); none models
an empty storage slot. -/
def lookupVote : VoteTable → Nat → Nat → Option Vote
  | [], _, _ => none
  | e :: t, pid, voter => if e.1 = (pid, voter) then some e.2 else lookupVote t pid voter

/-- Removes every binding of a key from the table. -/
def eraseKey : VoteTable → (Nat × Nat) → VoteTable
  | [], _ => []
  | e :: t, k => if e.1 = k then eraseKey t k else e :: eraseKey t k

/-- Writing the user_votes mapper at key (proposal_id, voter). -/
def setVote (t : VoteTable) (pid voter : Nat) (v : Vote) : VoteTable :=
  ((pid, voter), v) :: eraseKey t (pid, voter)

/-- Sum of stake_amount over all vote records stored for a proposal. -/
def stakeSum : VoteTable → Nat → Nat
  | [], _ => 0
  | e :: t, pid => (if e.1.1 = pid then e.2.stake_amount else 0) + stakeSum t pid

/-- The contract storage: scalar config entries, the proposal table, the
score table, the vote table and the claimed set. -/
structure GameState where
  game_duration_blocks : Nat
  game_start_block : Nat
  nft_reward_token_id : Nat
  current_proposal_id : Nat
  proposals : Nat → Option Proposal
  dao_scores : Nat → Nat
  user_votes : VoteTable
  nft_claimed : Nat → Option Bool

/-- The init endpoint: stores the duration and token id, captures the
current block nonce as game_start_block and sets the proposal counter
to 1; all other storage starts empty (scores read as 0). -/
def initGame (game_duration_blocks nft_reward_token_id current_block : Nat) : GameState :=
  { game_duration_blocks := game_duration_blocks
    game_start_block := current_block
    nft_reward_token_id := nft_reward_token_id
    current_proposal_id := 1
    proposals := fun _ => none
    dao_scores := fun _ => 0
    user_votes := []
    nft_claimed := fun _ => none }

/-- Modelled from the spec: u64 additions are overflow-checked ("adds
delta using overflow-checked unsigned arithmetic", section 4.4); the build
profile that turns the checks on is not under src/. Computes
game_start_block + game_duration_blocks, aborting on u64 overflow. -/
def gameEndBlock (s : GameState) : Except Err Nat :=
  if s.game_start_block + s.game_duration_blocks < U64CAP then
    .ok (s.game_start_block + s.game_duration_blocks)
  else .error .overflow

/-- The isGameActive view: current_block <= game_start + game_duration. -/
def is_game_active (s : GameState) (current_block : Nat) : Except Err Bool :=
  match gameEndBlock s with
  | .ok ge => .ok (current_block ≤ ge)
  | .error e => .error e

/-- The stubbed eligibility check of the contract: always true. -/
def is_eligible_for_reward (_s : GameState) (_player : Nat) : Bool := true

/-- Modelled from the spec: overflow-checked u64 addition (section 4.4);
the build profile enabling the checks is not under src/. Reads the current
score (0 if absent) and adds the given points. -/
def add_dao_points (scores : Nat → Nat) (player points : Nat) : Except Err (Nat → Nat) :=
  if scores player + points < U64CAP then
    .ok (fun a => if a = player then scores player + points else scores a)
  else .error .overflow

/-- The createProposal endpoint. -/
def create_proposal (s : GameState) (caller current_block : Nat)
    (title description : List Nat) (voting_duration_blocks : Nat) : Except Err GameState :=
  match is_game_active s current_block with
  | .error e => .error e
  | .ok active =>
    if active then
      if current_block + voting_duration_blocks < U64CAP then
        if s.current_proposal_id + 1 < U32CAP then
          match add_dao_points s.dao_scores caller 10 with
          | .error e => .error e
          | .ok scores1 =>
            .ok { s with
              proposals := fun pid =>
                if pid = s.current_proposal_id then
                  some { id := s.current_proposal_id
                         creator := caller
                         title := title
                         description := description
                         votes_for := 0
                         votes_against := 0
                         start_block := current_block
                         end_block := current_block + voting_duration_blocks
                         executed := false }
                else s.proposals pid
              current_proposal_id := s.current_proposal_id + 1
              dao_scores := scores1 }
        else .error .overflow
      else .error .overflow
    else .error .gameEnded

/-- The dao_points computed by vote: the stake divided by one UNIT,
converted to u64 with fallback 1 when the quotient does not fit
(BigUint::to_u64().unwrap_or(1) in the source). -/
def voteDaoPoints (payment : Nat) : Nat :=
  if payment / UNIT < U64CAP then payment / UNIT else 1

/-- Adding a stake to the chosen side of a proposal's tally. -/
def applyVoteToProposal (p : Proposal) (vote_for : Bool) (payment : Nat) : Proposal :=
  if vote_for then { p with votes_for := p.votes_for + payment }
  else { p with votes_against := p.votes_against + payment }

/-- The vote endpoint; payment is the attached EGLD value. -/
def vote (s : GameState) (caller current_block payment proposal_id : Nat)
    (vote_for : Bool) : Except Err GameState :=
  match is_game_active s current_block with
  | .error e => .error e
  | .ok active =>
    if active then
      if 0 < payment then
        match s.proposals proposal_id with
        | none => .error .proposalNotFound
        | some p =>
          if p.start_block ≤ current_block then
            if current_block ≤ p.end_block then
              match lookupVote s.user_votes proposal_id caller with
              | some _ => .error .alreadyVoted
              | none =>
                if voteDaoPoints payment * 2 < U64CAP then
                  match add_dao_points s.dao_scores caller (voteDaoPoints payment * 2) with
                  | .error e => .error e
                  | .ok scores1 =>
                    .ok { s with
                      user_votes := setVote s.user_votes proposal_id caller
                        { voter := caller
                          proposal_id := proposal_id
                          vote_for := vote_for
                          stake_amount := payment
                          block_number := current_block }
                      proposals := fun q =>
                        if q = proposal_id then some (applyVoteToProposal p vote_for payment)
                        else s.proposals q
                      dao_scores := scores1 }
                else .error .overflow
            else .error .votingEnded
          else .error .votingNotStarted
      else .error .zeroStake
    else .error .gameEnded

/-- The executeProposal endpoint; note there is no game-active check. -/
def execute_proposal (s : GameState) (current_block proposal_id : Nat) : Except Err GameState :=
  match s.proposals proposal_id with
  | none => .error .proposalNotFound
  | some p =>
    if p.end_block < current_block then
      if p.executed then .error .alreadyExecuted
      else
        if p.votes_against < p.votes_for then
          match add_dao_points s.dao_scores p.creator 50 with
          | .error e => .error e
          | .ok scores1 =>
            .ok { s with
              proposals := fun q =>
                if q = proposal_id then some { p with executed := true } else s.proposals q
              dao_scores := scores1 }
        else .ok s
    else .error .votingStillActive

/-- The claimReward endpoint (claim_nft_reward in the source). -/
def claim_nft_reward (s : GameState) (caller current_block : Nat) : Except Err GameState :=
  match is_game_active s current_block with
  | .error e => .error e
  | .ok active =>
    if active then .error .gameStillActive
    else
      match s.nft_claimed caller with
      | some _ => .error .alreadyClaimed
      | none =>
        if 0 < s.dao_scores caller then
          if is_eligible_for_reward s caller then
            .ok { s with
              nft_claimed := fun a => if a = caller then some true else s.nft_claimed a }
          else .error .notEligible
        else .error .noScore

/-- The getPlayerScore view. -/
def get_player_score (s : GameState) (player : Nat) : Nat := s.dao_scores player

/-- One public operation together with its call context (caller, block
nonce, attached payment). -/
inductive Op where
  | createProposal (caller current_block : Nat) (title description : List Nat)
      (voting_duration_blocks : Nat)
  | voteOp (caller current_block payment proposal_id : Nat) (vote_for : Bool)
  | executeProposal (current_block proposal_id : Nat)
  | claimReward (caller current_block : Nat)

/-- Dispatches one operation to its endpoint. -/
def applyOp (s : GameState) : Op → Except Err GameState
  | .createProposal c b t d dur => create_proposal s c b t d dur
  | .voteOp c b pay pid vf => vote s c b pay pid vf
  | .executeProposal b pid => execute_proposal s b pid
  | .claimReward c b => claim_nft_reward s c b

/-- Whether an Except result is a success. -/
def isOkE (r : Except Err GameState) : Bool :=
  match r with
  | .ok _ => true
  | .error _ => false

/-- Whether an operation is a createProposal call. -/
def isCreate : Op → Bool
  | .createProposal .. => true
  | _ => false

/-- Atomic execution of one operation: a failing precondition rolls back
every mutation, leaving the state unchanged. -/
def step (s : GameState) (op : Op) : GameState :=
  match applyOp s op with
  | .ok s1 => s1
  | .error _ => s

/-- Runs a whole history of operations. -/
def run (s : GameState) (ops : List Op) : GameState := ops.foldl step s

/-- Number of accepted createProposal calls in a history. -/
def acceptedCreates : GameState → List Op → Nat
  | _, [] => 0
  | s, op :: ops =>
    (if isCreate op && isOkE (applyOp s op) then 1 else 0) + acceptedCreates (step s op) ops

/-- Storage invariant tying tallies to vote records: ids at or above the
counter are unassigned, unassigned ids have no votes, and every stored
proposal's tallies sum to the stakes of its stored votes. -/
def TalliesInv (s : GameState) : Prop :=
  (∀ pid, s.current_proposal_id ≤ pid → s.proposals pid = none) ∧
  (∀ pid, s.proposals pid = none → stakeSum s.user_votes pid = 0) ∧
  (∀ pid p, s.proposals pid = some p →
    p.votes_for + p.votes_against = stakeSum s.user_votes pid)

/-- A proposal that is stored as executed. -/
def ExecutedAt (s : GameState) (pid : Nat) : Prop :=
  ∃ p, s.proposals pid = some p ∧ p.executed = true

/-- Sample proposal for concrete instantiations: open window up to
block 10, tally 5 for and 3 against. -/
def exProposal : Proposal :=
  { id := 1, creator := 7, title := [], description := [], votes_for := 5, votes_against := 3
    start_block := 0, end_block := 10, executed := false }

/-- Sample tied proposal. -/
def exPTie : Proposal :=
  { exProposal with votes_for := 3, votes_against := 3 }

/-- Sample proposal produced by one create and one 5-stake vote. -/
def exP1 : Proposal :=
  { id := 1, creator := 7, title := [], description := [], votes_for := 5, votes_against := 0
    start_block := 0, end_block := 10, executed := false }

/-- Sample executed proposal produced by create, vote and execute. -/
def exP2 : Proposal :=
  { id := 1, creator := 7, title := [], description := [], votes_for := 1, votes_against := 0
    start_block := 0, end_block := 0, executed := true }

/-- Sample state: game over blocks 0..100, one open proposal, no votes,
no scores, no claims. -/
def exState : GameState :=
  { game_duration_blocks := 100, game_start_block := 0, nft_reward_token_id := 9
    current_proposal_id := 2
    proposals := fun pid => if pid = 1 then some exProposal else none
    dao_scores := fun _ => 0
    user_votes := []
    nft_claimed := fun _ => none }

/-- Sample state holding the tied proposal. -/
def exStateTie : GameState :=
  { exState with proposals := fun pid => if pid = 1 then some exPTie else none }

/-- Sample state where address 7 has a positive score. -/
def exStateScored : GameState :=
  { exState with dao_scores := fun a => if a = 7 then 10 else 0 }

/-- Sample state where address 7 has already claimed. -/
def exStateClaimed : GameState :=
  { exState with nft_claimed := fun a => if a = 7 then some true else none }

/-- Sample state after address 8 cast an accepted 5-stake vote on the
sample proposal at block 1. -/
def exS1 : GameState :=
  { exState with
    user_votes := setVote exState.user_votes 1 8
      { voter := 8, proposal_id := 1, vote_for := true, stake_amount := 5, block_number := 1 }
    proposals := fun q => if q = 1 then some (applyVoteToProposal exProposal true 5)
      else exState.proposals q
    dao_scores := fun a => if a = 8 then exState.dao_scores 8 + voteDaoPoints 5 * 2
      else exState.dao_scores a }

/-- Sample history: create, vote for with stake 1, execute. -/
def exOps1 : List Op :=
  [Op.createProposal 7 0 [] [] 0, Op.voteOp 8 0 1 1 true, Op.executeProposal 1 1]

/-- Sample history: create, then an accepted 1-stake vote by address 8. -/
def exOpsVote : List Op :=
  [Op.createProposal 7 0 [] [] 10, Op.voteOp 8 1 1 1 true]

/-- Sample history: create, then a 5-stake vote by address 8 at block 1. -/
def exOps2 : List Op :=
  [Op.createProposal 7 0 [] [] 10, Op.voteOp 8 1 5 1 true]

/-- Inversion for a successful add_dao_points. -/
theorem add_dao_points_ok {scores : Nat → Nat} {player points : Nat} {f : Nat → Nat}
    (h : add_dao_points scores player points = .ok f) :
    scores player + points < U64CAP ∧
    f = fun a => if a = player then scores player + points else scores a := by
  unfold add_dao_points at h
  split at h
  · cases h
    exact ⟨by assumption, rfl⟩
  · cases h

/-- Inversion for a successful create_proposal. -/
theorem create_proposal_ok {s : GameState} {caller b : Nat} {title description : List Nat}
    {dur : Nat} {s1 : GameState}
    (h : create_proposal s caller b title description dur = .ok s1) :
    is_game_active s b = .ok true ∧ b + dur < U64CAP ∧
    s.current_proposal_id + 1 < U32CAP ∧ s.dao_scores caller + 10 < U64CAP ∧
    s1 = { s with
      proposals := fun pid =>
        if pid = s.current_proposal_id then
          some { id := s.current_proposal_id, creator := caller, title := title
                 description := description, votes_for := 0, votes_against := 0
                 start_block := b, end_block := b + dur, executed := false }
        else s.proposals pid
      current_proposal_id := s.current_proposal_id + 1
      dao_scores := fun a => if a = caller then s.dao_scores caller + 10 else s.dao_scores a } := by
  unfold create_proposal at h
  repeat' split at h
  any_goals cases h
  rename is_game_active s b = Except.ok _ => heq
  rename _ = true => hactive
  obtain ⟨hfit, hf⟩ := add_dao_points_ok (by assumption :
    add_dao_points s.dao_scores caller 10 = .ok _)
  subst hf
  exact ⟨by rw [heq, hactive], by assumption, by assumption, hfit, rfl⟩

/-- Inversion for a successful vote. -/
theorem vote_ok_inv {s : GameState} {caller b pay pid : Nat} {vf : Bool} {s1 : GameState}
    (h : vote s caller b pay pid vf = .ok s1) :
    ∃ p, s.proposals pid = some p ∧
      is_game_active s b = .ok true ∧ 0 < pay ∧
      p.start_block ≤ b ∧ b ≤ p.end_block ∧
      lookupVote s.user_votes pid caller = none ∧
      voteDaoPoints pay * 2 < U64CAP ∧
      s.dao_scores caller + voteDaoPoints pay * 2 < U64CAP ∧
      s1 = { s with
        user_votes := setVote s.user_votes pid caller
          { voter := caller, proposal_id := pid, vote_for := vf
            stake_amount := pay, block_number := b }
        proposals := fun q =>
          if q = pid then some (applyVoteToProposal p vf pay) else s.proposals q
        dao_scores := fun a =>
          if a = caller then s.dao_scores caller + voteDaoPoints pay * 2
          else s.dao_scores a } := by
  unfold vote at h
  repeat' split at h
  any_goals cases h
  rename Proposal => p
  rename is_game_active s b = Except.ok _ => heq
  rename _ = true => hactive
  obtain ⟨hfit, hf⟩ := add_dao_points_ok (by assumption :
    add_dao_points s.dao_scores caller (voteDaoPoints pay * 2) = .ok _)
  subst hf
  exact ⟨p, by assumption, by rw [heq, hactive], by assumption, by assumption,
    by assumption, by assumption, by assumption, hfit, rfl⟩

/-- Inversion for a successful execute_proposal. -/
theorem execute_proposal_ok {s : GameState} {b pid : Nat} {s1 : GameState}
    (h : execute_proposal s b pid = .ok s1) :
    ∃ p, s.proposals pid = some p ∧ p.end_block < b ∧ p.executed = false ∧
      ((p.votes_against < p.votes_for ∧ s.dao_scores p.creator + 50 < U64CAP ∧
        s1 = { s with
          proposals := fun q =>
            if q = pid then some { p with executed := true } else s.proposals q
          dao_scores := fun a =>
            if a = p.creator then s.dao_scores p.creator + 50 else s.dao_scores a }) ∨
       (¬ p.votes_against < p.votes_for ∧ s1 = s)) := by
  unfold execute_proposal at h
  repeat' split at h
  any_goals cases h
  · rename Proposal => p
    rename ¬ _ = true => hexec
    obtain ⟨hfit, hf⟩ := add_dao_points_ok (by assumption :
      add_dao_points s.dao_scores p.creator 50 = .ok _)
    subst hf
    exact ⟨p, by assumption, by assumption, by simpa using hexec,
      Or.inl ⟨by assumption, hfit, rfl⟩⟩
  · rename Proposal => p
    rename ¬ _ < _ => hpass
    rename ¬ _ = true => hexec
    exact ⟨p, by assumption, by assumption, by simpa using hexec, Or.inr ⟨hpass, rfl⟩⟩

/-- Inversion for a successful claim_nft_reward. -/
theorem claim_nft_reward_ok {s : GameState} {caller b : Nat} {s1 : GameState}
    (h : claim_nft_reward s caller b = .ok s1) :
    is_game_active s b = .ok false ∧ s.nft_claimed caller = none ∧
    0 < s.dao_scores caller ∧
    s1 = { s with
      nft_claimed := fun a => if a = caller then some true else s.nft_claimed a } := by
  unfold claim_nft_reward at h
  repeat' split at h
  any_goals cases h
  rename is_game_active s _ = Except.ok _ => heq
  rename ¬ _ = true => hactive
  refine ⟨?_, by assumption, by assumption, rfl⟩
  rw [heq]
  simp at hactive
  rw [hactive]

/-- A step with a successful operation moves to its result. -/
theorem step_ok {s s1 : GameState} {op : Op} (h : applyOp s op = .ok s1) : step s op = s1 := by
  simp [step, h]

/-- A step with a failing operation leaves the state unchanged. -/
theorem step_err {s : GameState} {op : Op} {e : Err} (h : applyOp s op = .error e) :
    step s op = s := by
  simp [step, h]

/-- Running a cons splits into a step and the remaining history. -/
theorem run_cons (s : GameState) (op : Op) (ops : List Op) :
    run s (op :: ops) = run (step s op) ops := rfl

/-- Running an empty history is the identity. -/
theorem run_nil (s : GameState) : run s [] = s := rfl

/-- Running an appended history runs the parts in order. -/
theorem run_append (s : GameState) (l1 l2 : List Op) :
    run s (l1 ++ l2) = run (run s l1) l2 := by
  simp [run, List.foldl_append]

/-- Erasing a different key does not change a lookup. -/
theorem lookupVote_eraseKey_ne (t : VoteTable) (k : Nat × Nat) (pid voter : Nat)
    (h : (pid, voter) ≠ k) : lookupVote (eraseKey t k) pid voter = lookupVote t pid voter := by
  induction t with
  | nil => rfl
  | cons e t ih =>
    by_cases he : e.1 = k
    · rw [eraseKey, if_pos he, ih, lookupVote, if_neg (by rw [he]; exact (Ne.symm h))]
    · rw [eraseKey, if_neg he, lookupVote, lookupVote]
      by_cases hp : e.1 = (pid, voter)
      · rw [if_pos hp, if_pos hp]
      · rw [if_neg hp, if_neg hp, ih]

/-- Erasing a key that is not bound is the identity. -/
theorem eraseKey_of_lookup_none (t : VoteTable) (pid voter : Nat)
    (h : lookupVote t pid voter = none) : eraseKey t (pid, voter) = t := by
  induction t with
  | nil => rfl
  | cons e t ih =>
    rw [lookupVote] at h
    by_cases he : e.1 = (pid, voter)
    · rw [if_pos he] at h; cases h
    · rw [if_neg he] at h
      rw [eraseKey, if_neg he, ih h]

/-- Stake sum after inserting a fresh vote record. -/
theorem stakeSum_setVote (t : VoteTable) (pid voter q : Nat) (v : Vote)
    (h : lookupVote t pid voter = none) :
    stakeSum (setVote t pid voter v) q =
      (if pid = q then v.stake_amount else 0) + stakeSum t q := by
  rw [setVote, eraseKey_of_lookup_none t pid voter h]
  rfl

/-- A stored vote record survives inserting a record at a fresh key. -/
theorem lookupVote_setVote_of_some {t : VoteTable} {q a : Nat} {v0 : Vote}
    (pid voter : Nat) (v : Vote)
    (hq : lookupVote t q a = some v0) (hne : lookupVote t pid voter = none) :
    lookupVote (setVote t pid voter v) q a = some v0 := by
  have hkey : ((pid, voter) : Nat × Nat) ≠ (q, a) := by
    intro he
    injection he with h1 h2
    subst h1
    subst h2
    rw [hne] at hq
    cases hq
  rw [setVote, lookupVote, if_neg hkey,
    lookupVote_eraseKey_ne t (pid, voter) q a (Ne.symm hkey), hq]

/-- Voting preserves the executed flag of the proposal. -/
theorem applyVoteToProposal_executed (p : Proposal) (vf : Bool) (pay : Nat) :
    (applyVoteToProposal p vf pay).executed = p.executed := by
  unfold applyVoteToProposal
  split <;> rfl

/-- Voting adds the payment to the combined tally. -/
theorem applyVoteToProposal_tallies (p : Proposal) (vf : Bool) (pay : Nat) :
    (applyVoteToProposal p vf pay).votes_for + (applyVoteToProposal p vf pay).votes_against =
      p.votes_for + p.votes_against + pay := by
  unfold applyVoteToProposal
  split <;> dsimp only <;> omega

/-- Every step is either a rollback or one of the four successful
endpoint effects, stated with the exact resulting stores. -/
theorem step_shape (s : GameState) (op : Op) :
    step s op = s ∨
    (∃ caller b title description dur,
      op = Op.createProposal caller b title description dur ∧
      step s op = { s with
        proposals := fun pid =>
          if pid = s.current_proposal_id then
            some { id := s.current_proposal_id, creator := caller, title := title
                   description := description, votes_for := 0, votes_against := 0
                   start_block := b, end_block := b + dur, executed := false }
          else s.proposals pid
        current_proposal_id := s.current_proposal_id + 1
        dao_scores := fun a => if a = caller then s.dao_scores caller + 10
          else s.dao_scores a }) ∨
    (∃ caller b pay pid vf p,
      op = Op.voteOp caller b pay pid vf ∧
      s.proposals pid = some p ∧ lookupVote s.user_votes pid caller = none ∧
      step s op = { s with
        user_votes := setVote s.user_votes pid caller
          { voter := caller, proposal_id := pid, vote_for := vf
            stake_amount := pay, block_number := b }
        proposals := fun q =>
          if q = pid then some (applyVoteToProposal p vf pay) else s.proposals q
        dao_scores := fun a =>
          if a = caller then s.dao_scores caller + voteDaoPoints pay * 2
          else s.dao_scores a }) ∨
    (∃ b pid p,
      op = Op.executeProposal b pid ∧ s.proposals pid = some p ∧
      step s op = { s with
        proposals := fun q =>
          if q = pid then some { p with executed := true } else s.proposals q
        dao_scores := fun a =>
          if a = p.creator then s.dao_scores p.creator + 50 else s.dao_scores a }) ∨
    (∃ caller b,
      op = Op.claimReward caller b ∧ s.nft_claimed caller = none ∧
      step s op = { s with
        nft_claimed := fun a => if a = caller then some true else s.nft_claimed a }) := by
  cases op with
  | createProposal c b t d dur =>
    cases hop : create_proposal s c b t d dur with
    | error e => exact Or.inl (step_err (by simpa [applyOp] using hop))
    | ok s1 =>
      obtain ⟨-, -, -, -, hs⟩ := create_proposal_ok hop
      exact Or.inr (Or.inl ⟨c, b, t, d, dur, rfl,
        by rw [step_ok (by simpa [applyOp] using hop), hs]⟩)
  | voteOp c b pay pid vf =>
    cases hop : vote s c b pay pid vf with
    | error e => exact Or.inl (step_err (by simpa [applyOp] using hop))
    | ok s1 =>
      obtain ⟨p, hp, -, -, -, -, hnone, -, -, hs⟩ := vote_ok_inv hop
      exact Or.inr (Or.inr (Or.inl ⟨c, b, pay, pid, vf, p, rfl, hp, hnone,
        by rw [step_ok (by simpa [applyOp] using hop), hs]⟩))
  | executeProposal b pid =>
    cases hop : execute_proposal s b pid with
    | error e => exact Or.inl (step_err (by simpa [applyOp] using hop))
    | ok s1 =>
      obtain ⟨p, hp, -, -, hcase⟩ := execute_proposal_ok hop
      cases hcase with
      | inl hc =>
        obtain ⟨-, -, hs⟩ := hc
        exact Or.inr (Or.inr (Or.inr (Or.inl ⟨b, pid, p, rfl, hp,
          by rw [step_ok (by simpa [applyOp] using hop), hs]⟩)))
      | inr hc =>
        exact Or.inl (by rw [step_ok (by simpa [applyOp] using hop), hc.2])
  | claimReward c b =>
    cases hop : claim_nft_reward s c b with
    | error e => exact Or.inl (step_err (by simpa [applyOp] using hop))
    | ok s1 =>
      obtain ⟨-, hcl, -, hs⟩ := claim_nft_reward_ok hop
      exact Or.inr (Or.inr (Or.inr (Or.inr ⟨c, b, rfl, hcl,
        by rw [step_ok (by simpa [applyOp] using hop), hs]⟩)))

/-- Pointwise bound for a score-table update. -/
theorem le_update_add (f : Nat → Nat) (c k a : Nat) :
    f a ≤ if a = c then f c + k else f a := by
  split
  · next he => rw [he]; exact Nat.le_add_right _ _
  · exact le_rfl

/-- One step never decreases any stored score. -/
theorem dao_scores_step_le (s : GameState) (op : Op) (a : Nat) :
    s.dao_scores a ≤ (step s op).dao_scores a := by
  rcases step_shape s op with h | ⟨c, b, t, d, dur, -, h⟩ |
    ⟨c, b, pay, pid, vf, p, -, -, -, h⟩ | ⟨b, pid, p, -, -, h⟩ | ⟨c, b, -, -, h⟩
  · rw [h]
  · rw [h]; exact le_update_add s.dao_scores c 10 a
  · rw [h]; exact le_update_add s.dao_scores c (voteDaoPoints pay * 2) a
  · rw [h]; exact le_update_add s.dao_scores p.creator 50 a
  · rw [h]

/-- A whole history never decreases any stored score. -/
theorem dao_scores_run_le (s : GameState) (ops : List Op) (a : Nat) :
    s.dao_scores a ≤ (run s ops).dao_scores a := by
  induction ops generalizing s with
  | nil => exact le_rfl
  | cons op ops ih => exact le_trans (dao_scores_step_le s op a) (ih (step s op))

/-- One step never erases a claim mark. -/
theorem nft_claimed_step (s : GameState) (op : Op) (a : Nat) (x : Bool)
    (h : s.nft_claimed a = some x) : (step s op).nft_claimed a = some x := by
  rcases step_shape s op with hs | ⟨c, b, t, d, dur, -, hs⟩ |
    ⟨c, b, pay, pid, vf, p, -, -, -, hs⟩ | ⟨b, pid, p, -, -, hs⟩ |
    ⟨c, b, -, hcl, hs⟩ <;> rw [hs]
  · exact h
  · exact h
  · exact h
  · exact h
  · show (if a = c then some true else s.nft_claimed a) = some x
    split
    · next he => rw [he] at h; rw [h] at hcl; cases hcl
    · exact h

/-- A whole history never erases a claim mark. -/
theorem nft_claimed_run (s : GameState) (ops : List Op) (a : Nat) (x : Bool)
    (h : s.nft_claimed a = some x) : (run s ops).nft_claimed a = some x := by
  induction ops generalizing s with
  | nil => exact h
  | cons op ops ih => exact ih (step s op) (nft_claimed_step s op a x h)

/-- One step never erases a vote record. -/
theorem user_votes_step (s : GameState) (op : Op) (q a : Nat) (v : Vote)
    (h : lookupVote s.user_votes q a = some v) :
    ∃ v1, lookupVote (step s op).user_votes q a = some v1 := by
  rcases step_shape s op with hs | ⟨c, b, t, d, dur, -, hs⟩ |
    ⟨c, b, pay, pid, vf, p, -, -, hnone, hs⟩ | ⟨b, pid, p, -, -, hs⟩ |
    ⟨c, b, -, -, hs⟩ <;> rw [hs]
  · exact ⟨v, h⟩
  · exact ⟨v, h⟩
  · exact ⟨v, lookupVote_setVote_of_some pid c _ h hnone⟩
  · exact ⟨v, h⟩
  · exact ⟨v, h⟩

/-- A whole history never erases a vote record. -/
theorem user_votes_run (s : GameState) (ops : List Op) (q a : Nat) (v : Vote)
    (h : lookupVote s.user_votes q a = some v) :
    ∃ v1, lookupVote (run s ops).user_votes q a = some v1 := by
  induction ops generalizing s v with
  | nil => exact ⟨v, h⟩
  | cons op ops ih =>
    obtain ⟨v1, h1⟩ := user_votes_step s op q a v h
    exact ih (step s op) v1 h1

/-- No operation changes the game configuration. -/
theorem config_step (s : GameState) (op : Op) :
    (step s op).game_start_block = s.game_start_block ∧
    (step s op).game_duration_blocks = s.game_duration_blocks := by
  rcases step_shape s op with hs | ⟨c, b, t, d, dur, -, hs⟩ |
    ⟨c, b, pay, pid, vf, p, -, -, -, hs⟩ | ⟨b, pid, p, -, -, hs⟩ |
    ⟨c, b, -, -, hs⟩ <;> rw [hs] <;> exact ⟨rfl, rfl⟩

/-- No history changes the game configuration. -/
theorem config_run (s : GameState) (ops : List Op) :
    (run s ops).game_start_block = s.game_start_block ∧
    (run s ops).game_duration_blocks = s.game_duration_blocks := by
  induction ops generalizing s with
  | nil => exact ⟨rfl, rfl⟩
  | cons op ops ih =>
    obtain ⟨h1, h2⟩ := ih (step s op)
    obtain ⟨g1, g2⟩ := config_step s op
    exact ⟨h1.trans g1, h2.trans g2⟩

/-- The end of the game is unchanged by any history. -/
theorem gameEndBlock_run (s : GameState) (ops : List Op) :
    gameEndBlock (run s ops) = gameEndBlock s := by
  obtain ⟨h1, h2⟩ := config_run s ops
  unfold gameEndBlock
  rw [h1, h2]

/-- The proposal counter increments exactly on accepted creates. -/
theorem counter_step (s : GameState) (op : Op) :
    (step s op).current_proposal_id =
      s.current_proposal_id + (if isCreate op && isOkE (applyOp s op) then 1 else 0) := by
  cases op with
  | createProposal c b t d dur =>
    cases hop : create_proposal s c b t d dur with
    | error e =>
      rw [step_err (show applyOp s (Op.createProposal c b t d dur) = .error e from hop)]
      simp [isOkE, applyOp, hop]
    | ok s1 =>
      obtain ⟨-, -, -, -, hs⟩ := create_proposal_ok hop
      rw [step_ok (show applyOp s (Op.createProposal c b t d dur) = .ok s1 from hop), hs]
      simp [isOkE, isCreate, applyOp, hop]
  | voteOp c b pay pid vf =>
    rcases step_shape s (Op.voteOp c b pay pid vf) with hs | ⟨_, _, _, _, _, he, -⟩ |
      ⟨_, _, _, _, _, _, -, -, -, hs⟩ | ⟨_, _, _, he, -⟩ | ⟨_, _, he, -⟩
    · rw [hs]; simp [isCreate]
    · cases he
    · rw [hs]; simp [isCreate]
    · cases he
    · cases he
  | executeProposal b pid =>
    rcases step_shape s (Op.executeProposal b pid) with hs | ⟨_, _, _, _, _, he, -⟩ |
      ⟨_, _, _, _, _, _, he, -, -, -⟩ | ⟨_, _, _, -, -, hs⟩ | ⟨_, _, he, -⟩
    · rw [hs]; simp [isCreate]
    · cases he
    · cases he
    · rw [hs]; simp [isCreate]
    · cases he
  | claimReward c b =>
    rcases step_shape s (Op.claimReward c b) with hs | ⟨_, _, _, _, _, he, -⟩ |
      ⟨_, _, _, _, _, _, he, -, -, -⟩ | ⟨_, _, _, he, -, -⟩ | ⟨_, _, -, -, hs⟩
    · rw [hs]; simp [isCreate]
    · cases he
    · cases he
    · cases he
    · rw [hs]; simp [isCreate]

/-- The counter after a history equals its start plus the accepted creates. -/
theorem counter_run (s : GameState) (ops : List Op) :
    (run s ops).current_proposal_id = s.current_proposal_id + acceptedCreates s ops := by
  induction ops generalizing s with
  | nil => rfl
  | cons op ops ih =>
    show (run (step s op) ops).current_proposal_id = _
    rw [ih (step s op), counter_step s op, acceptedCreates, Nat.add_assoc]

/-- The freshly initialized contract satisfies the tallies invariant. -/
theorem talliesInv_init (d tok b : Nat) : TalliesInv (initGame d tok b) :=
  ⟨fun _ _ => rfl, fun _ _ => rfl, fun _ p h => by cases h⟩

/-- One step preserves the tallies invariant. -/
theorem talliesInv_step {s : GameState} (op : Op) (hinv : TalliesInv s) :
    TalliesInv (step s op) := by
  obtain ⟨h1, h2, h3⟩ := hinv
  rcases step_shape s op with hs | ⟨c, b, t, d, dur, -, hs⟩ |
    ⟨c, b, pay, pid, vf, p, -, hp, hnone, hs⟩ | ⟨b, pid, p, -, hp, hs⟩ | ⟨c, b, -, -, hs⟩
  · rw [hs]; exact ⟨h1, h2, h3⟩
  · rw [hs]
    refine ⟨?_, ?_, ?_⟩
    · intro q hq
      show (if q = s.current_proposal_id then _ else s.proposals q) = none
      rw [if_neg (by dsimp only at hq; omega)]
      exact h1 q (by dsimp only at hq; omega)
    · intro q hq
      show stakeSum s.user_votes q = 0
      dsimp only at hq
      by_cases hqc : q = s.current_proposal_id
      · rw [if_pos hqc] at hq
        cases hq
      · rw [if_neg hqc] at hq
        exact h2 q hq
    · intro q pr hq
      show pr.votes_for + pr.votes_against = stakeSum s.user_votes q
      dsimp only at hq
      by_cases hqc : q = s.current_proposal_id
      · rw [if_pos hqc] at hq
        have hnone2 : s.proposals q = none := h1 q (by rw [hqc])
        injection hq with hq1
        rw [← hq1, h2 q hnone2]
        rfl
      · rw [if_neg hqc] at hq
        exact h3 q pr hq
  · have hlt : ¬ s.current_proposal_id ≤ pid := by
      intro hle
      rw [h1 pid hle] at hp
      cases hp
    rw [hs]
    refine ⟨?_, ?_, ?_⟩
    · intro q hq
      show (if q = pid then _ else s.proposals q) = none
      dsimp only at hq
      rw [if_neg (by intro he; rw [he] at hq; exact hlt hq)]
      exact h1 q hq
    · intro q hq
      show stakeSum (setVote s.user_votes pid c _) q = 0
      dsimp only at hq
      by_cases hqc : q = pid
      · rw [if_pos hqc] at hq; cases hq
      · rw [if_neg hqc] at hq
        rw [stakeSum_setVote s.user_votes pid c q _ hnone,
          if_neg (fun he => hqc (he.symm)), h2 q hq]
    · intro q pr hq
      show pr.votes_for + pr.votes_against = stakeSum (setVote s.user_votes pid c _) q
      dsimp only at hq
      rw [stakeSum_setVote s.user_votes pid c q _ hnone]
      by_cases hqc : q = pid
      · rw [if_pos hqc] at hq
        injection hq with hq1
        rw [← hq1, applyVoteToProposal_tallies, if_pos hqc.symm, hqc]
        dsimp only
        have h4 := h3 pid p hp
        omega
      · rw [if_neg hqc] at hq
        rw [if_neg (fun he => hqc (he.symm)), Nat.zero_add]
        exact h3 q pr hq
  · have hlt : ¬ s.current_proposal_id ≤ pid := by
      intro hle
      rw [h1 pid hle] at hp
      cases hp
    rw [hs]
    refine ⟨?_, ?_, ?_⟩
    · intro q hq
      show (if q = pid then _ else s.proposals q) = none
      dsimp only at hq
      rw [if_neg (by intro he; rw [he] at hq; exact hlt hq)]
      exact h1 q hq
    · intro q hq
      show stakeSum s.user_votes q = 0
      dsimp only at hq
      by_cases hqc : q = pid
      · rw [if_pos hqc] at hq; cases hq
      · rw [if_neg hqc] at hq
        exact h2 q hq
    · intro q pr hq
      show pr.votes_for + pr.votes_against = stakeSum s.user_votes q
      dsimp only at hq
      by_cases hqc : q = pid
      · rw [if_pos hqc] at hq
        injection hq with hq1
        rw [← hq1]
        show p.votes_for + p.votes_against = stakeSum s.user_votes q
        rw [hqc]
        exact h3 pid p hp
      · rw [if_neg hqc] at hq
        exact h3 q pr hq
  · rw [hs]
    exact ⟨h1, h2, h3⟩

/-- A whole history preserves the tallies invariant. -/
theorem talliesInv_run {s : GameState} (ops : List Op) (hinv : TalliesInv s) :
    TalliesInv (run s ops) := by
  induction ops generalizing s with
  | nil => exact hinv
  | cons op ops ih => exact ih (talliesInv_step op hinv)

/-- One step keeps an executed proposal stored and executed. -/
theorem executedAt_step {s : GameState} {pid : Nat} (op : Op)
    (h1 : ∀ q, s.current_proposal_id ≤ q → s.proposals q = none)
    (hex : ExecutedAt s pid) : ExecutedAt (step s op) pid := by
  obtain ⟨p0, hp0, hpe⟩ := hex
  have hlt : ¬ s.current_proposal_id ≤ pid := by
    intro hle
    rw [h1 pid hle] at hp0
    cases hp0
  rcases step_shape s op with hs | ⟨c, b, t, d, dur, -, hs⟩ |
    ⟨c, b, pay, pidv, vf, p, -, hp, -, hs⟩ | ⟨b, pide, p, -, hp, hs⟩ | ⟨c, b, -, -, hs⟩
  · rw [hs]; exact ⟨p0, hp0, hpe⟩
  · rw [hs]
    refine ⟨p0, ?_, hpe⟩
    show (if pid = s.current_proposal_id then _ else s.proposals pid) = some p0
    rw [if_neg (by intro he; exact hlt (le_of_eq he.symm))]
    exact hp0
  · rw [hs]
    by_cases hqc : pid = pidv
    · subst hqc
      rw [hp] at hp0
      injection hp0 with hp1
      subst hp1
      refine ⟨applyVoteToProposal p vf pay, ?_, ?_⟩
      · show (if pid = pid then _ else s.proposals pid) = _
        rw [if_pos rfl]
      · rw [applyVoteToProposal_executed]
        exact hpe
    · refine ⟨p0, ?_, hpe⟩
      show (if pid = pidv then _ else s.proposals pid) = some p0
      rw [if_neg hqc]
      exact hp0
  · rw [hs]
    by_cases hqc : pid = pide
    · subst hqc
      rw [hp] at hp0
      injection hp0 with hp1
      subst hp1
      refine ⟨{ p with executed := true }, ?_, rfl⟩
      show (if pid = pid then _ else s.proposals pid) = _
      rw [if_pos rfl]
    · refine ⟨p0, ?_, hpe⟩
      show (if pid = pide then _ else s.proposals pid) = some p0
      rw [if_neg hqc]
      exact hp0
  · rw [hs]
    exact ⟨p0, hp0, hpe⟩

/-- A whole history keeps an executed proposal stored and executed. -/
theorem executedAt_run {s : GameState} {pid : Nat} (ops : List Op)
    (hinv : TalliesInv s) (hex : ExecutedAt s pid) : ExecutedAt (run s ops) pid := by
  induction ops generalizing s with
  | nil => exact hex
  | cons op ops ih =>
    exact ih (talliesInv_step op hinv) (executedAt_step op hinv.1 hex)

/-- Inversion for a successful gameEndBlock computation. -/
theorem gameEndBlock_ok {s : GameState} {ge : Nat} (h : gameEndBlock s = .ok ge) :
    ge = s.game_start_block + s.game_duration_blocks ∧
    s.game_start_block + s.game_duration_blocks < U64CAP := by
  unfold gameEndBlock at h
  split at h
  · cases h
    exact ⟨rfl, by assumption⟩
  · cases h

/-- Inversion for a successful is_game_active computation. -/
theorem is_game_active_ok_inv {s : GameState} {b : Nat} {v : Bool}
    (h : is_game_active s b = .ok v) :
    gameEndBlock s = .ok (s.game_start_block + s.game_duration_blocks) ∧
    decide (b ≤ s.game_start_block + s.game_duration_blocks) = v := by
  unfold is_game_active at h
  split at h
  · rename_i ge hge
    obtain ⟨hge1, -⟩ := gameEndBlock_ok hge
    subst hge1
    cases h
    exact ⟨hge, rfl⟩
  · cases h

/-- The record just inserted by setVote is looked up. -/
theorem lookupVote_setVote_self (t : VoteTable) (pid voter : Nat) (v : Vote) :
    lookupVote (setVote t pid voter v) pid voter = some v := by
  rw [setVote, lookupVote, if_pos rfl]

/-- Forward computation of a passing execute_proposal. -/
theorem execute_proposal_success {s : GameState} {b pid : Nat} {p : Proposal}
    (hp : s.proposals pid = some p) (hb : p.end_block < b) (hex : p.executed = false)
    (hpass : p.votes_against < p.votes_for)
    (hfit : s.dao_scores p.creator + 50 < U64CAP) :
    execute_proposal s b pid = .ok { s with
      proposals := fun q => if q = pid then some { p with executed := true }
        else s.proposals q
      dao_scores := fun a => if a = p.creator then s.dao_scores p.creator + 50
        else s.dao_scores a } := by
  unfold execute_proposal add_dao_points
  rw [hp]
  dsimp only
  rw [if_pos hb, if_neg (by rw [hex]; exact Bool.false_ne_true), if_pos hpass, if_pos hfit]

/-- Forward computation of a failing (tied or losing) execute_proposal. -/
theorem execute_proposal_noop {s : GameState} {b pid : Nat} {p : Proposal}
    (hp : s.proposals pid = some p) (hb : p.end_block < b) (hex : p.executed = false)
    (hfail : ¬ p.votes_against < p.votes_for) :
    execute_proposal s b pid = .ok s := by
  unfold execute_proposal
  rw [hp]
  dsimp only
  rw [if_pos hb, if_neg (by rw [hex]; exact Bool.false_ne_true), if_neg hfail]

/-- Forward computation of a successful claim_nft_reward. -/
theorem claim_nft_reward_success {s : GameState} {caller b : Nat}
    (hended : is_game_active s b = .ok false)
    (hcl : s.nft_claimed caller = none) (hsc : 0 < s.dao_scores caller) :
    claim_nft_reward s caller b = .ok { s with
      nft_claimed := fun a => if a = caller then some true else s.nft_claimed a } := by
  unfold claim_nft_reward
  rw [hended]
  dsimp only
  rw [if_neg Bool.false_ne_true, hcl]
  dsimp only
  rw [if_pos hsc, if_pos (show is_eligible_for_reward s caller = true from rfl)]

/-- C5: in every state reachable from initialization, each stored
proposal's votes_for + votes_against equals the sum of stake_amount over
all vote records stored for that proposal, after every operation of any
history. -/
theorem claim_C5_tally_invariant (d tok b : Nat) (ops : List Op) (pid : Nat) (p : Proposal)
    (h : (run (initGame d tok b) ops).proposals pid = some p) :
    p.votes_for + p.votes_against = stakeSum (run (initGame d tok b) ops).user_votes pid :=
  (talliesInv_run ops (talliesInv_init d tok b)).2.2 pid p h

/-- Witness for C5 at a concrete create-then-vote history. -/
theorem claim_C5_witness :
    exP1.votes_for + exP1.votes_against =
      stakeSum (run (initGame 100 9 0) exOps2).user_votes 1 :=
  claim_C5_tally_invariant 100 9 0 exOps2 1 exP1 (by decide)

/-- C6: for every address, the stored score is monotonically
non-decreasing across any sequence of operations, because the only
mutation path add_dao_points adds a non-negative delta with
overflow-checked arithmetic and no decrease or reset operation exists. -/
theorem claim_C6_score_monotone (s : GameState) (ops : List Op) (a : Nat) :
    get_player_score s a ≤ get_player_score (run s ops) a :=
  dao_scores_run_le s ops a

/-- C8: the executed flag of a stored proposal never reverts: in every
state reachable from initialization where a proposal is stored as
executed, after any further operations it is still stored as executed, so
the flag flips from false to true at most once and is never unset. -/
theorem claim_C8_executed_monotone (d tok b : Nat) (ops1 ops2 : List Op) (pid : Nat)
    (p p1 : Proposal)
    (h1 : (run (initGame d tok b) ops1).proposals pid = some p)
    (h2 : p.executed = true)
    (h3 : (run (run (initGame d tok b) ops1) ops2).proposals pid = some p1) :
    p1.executed = true := by
  have hinv := talliesInv_run ops1 (talliesInv_init d tok b)
  obtain ⟨p2, hp2, hpe2⟩ := executedAt_run ops2 hinv ⟨p, h1, h2⟩
  rw [h3] at hp2
  injection hp2 with he
  rw [he]
  exact hpe2

/-- Witness for C8: the executed sample proposal stays executed. -/
theorem claim_C8_witness : exP2.executed = true :=
  claim_C8_executed_monotone 100 9 0 exOps1 [] 1 exP2 exP2 (by decide) (by decide) (by decide)

/-- C7: while the game is active a successful create_proposal assigns the
current counter value as the id, increments the counter, persists the
proposal with start_block = current block, end_block = current block +
voting duration, zero tallies and executed = false, and adds exactly 10 to
the creator's score; and over any history from initialization the counter
equals 1 plus the number of accepted creates, so the assigned ids form
exactly the sequence 1, 2, 3, .... -/
theorem claim_C7_create_effects :
    (∀ (s : GameState) (caller b : Nat) (title description : List Nat) (dur : Nat),
      is_game_active s b = .ok true → b + dur < U64CAP →
      s.current_proposal_id + 1 < U32CAP → s.dao_scores caller + 10 < U64CAP →
      create_proposal s caller b title description dur = .ok { s with
        proposals := fun pid =>
          if pid = s.current_proposal_id then
            some { id := s.current_proposal_id, creator := caller, title := title
                   description := description, votes_for := 0, votes_against := 0
                   start_block := b, end_block := b + dur, executed := false }
          else s.proposals pid
        current_proposal_id := s.current_proposal_id + 1
        dao_scores := fun a => if a = caller then s.dao_scores caller + 10
          else s.dao_scores a }) ∧
    (∀ (d tok b : Nat) (ops : List Op),
      (run (initGame d tok b) ops).current_proposal_id =
        1 + acceptedCreates (initGame d tok b) ops) := by
  constructor
  · intro s caller b title description dur hact hdur hcnt hsc
    unfold create_proposal add_dao_points
    rw [hact]
    dsimp only
    rw [if_pos rfl, if_pos hdur, if_pos hcnt, if_pos hsc]
  · intro d tok b ops
    rw [counter_run (initGame d tok b) ops]
    rfl

/-- Witness for C7: a concrete create and the counter law on a sample
history with one accepted create. -/
theorem claim_C7_witness :
    create_proposal exState 7 5 [] [] 10 = .ok { exState with
      proposals := fun pid =>
        if pid = exState.current_proposal_id then
          some { id := exState.current_proposal_id, creator := 7, title := [], description := []
                 votes_for := 0, votes_against := 0, start_block := 5, end_block := 5 + 10
                 executed := false }
        else exState.proposals pid
      current_proposal_id := exState.current_proposal_id + 1
      dao_scores := fun a => if a = 7 then exState.dao_scores 7 + 10
        else exState.dao_scores a } ∧
    (run (initGame 100 9 0) exOps2).current_proposal_id =
      1 + acceptedCreates (initGame 100 9 0) exOps2 :=
  ⟨claim_C7_create_effects.1 exState 7 5 [] [] 10 (by rfl) (by decide) (by decide) (by decide),
   claim_C7_create_effects.2 100 9 0 exOps2⟩

/-- C3: executing an existing, unexecuted proposal strictly after its end
block succeeds; iff votes_for > votes_against (a tie fails) it marks the
proposal executed and adds exactly 50 points to the creator's score; on a
tie or loss it returns with the state entirely unchanged, leaving the
failed proposal re-executable indefinitely. -/
theorem claim_C3_execute_decision (s : GameState) (b pid : Nat) (p : Proposal)
    (hp : s.proposals pid = some p) (hb : p.end_block < b) (hex : p.executed = false)
    (hfit : s.dao_scores p.creator + 50 < U64CAP) :
    (p.votes_against < p.votes_for →
      execute_proposal s b pid = .ok { s with
        proposals := fun q => if q = pid then some { p with executed := true }
          else s.proposals q
        dao_scores := fun a => if a = p.creator then s.dao_scores p.creator + 50
          else s.dao_scores a }) ∧
    (¬ p.votes_against < p.votes_for → execute_proposal s b pid = .ok s) :=
  ⟨fun hpass => execute_proposal_success hp hb hex hpass hfit,
   fun hfail => execute_proposal_noop hp hb hex hfail⟩

/-- Witness for C3: a passing and a tied execution on sample states. -/
theorem claim_C3_witness :
    execute_proposal exState 11 1 = .ok { exState with
      proposals := fun q => if q = 1 then some { exProposal with executed := true }
        else exState.proposals q
      dao_scores := fun a => if a = exProposal.creator then
          exState.dao_scores exProposal.creator + 50
        else exState.dao_scores a } ∧
    execute_proposal exStateTie 11 1 = .ok exStateTie :=
  ⟨(claim_C3_execute_decision exState 11 1 exProposal (by rfl) (by decide) (by rfl)
      (by decide)).1 (by decide),
   (claim_C3_execute_decision exStateTie 11 1 exPTie (by rfl) (by decide) (by rfl)
      (by decide)).2 (by decide)⟩

/-- C9: execute_proposal has no game-active precondition: with the game
already ended it still succeeds on an unexecuted passing proposal past its
end block, increasing the creator's score by 50 after game end, and the
creator (unclaimed, now with positive score) can then successfully
claim the reward. -/
theorem claim_C9_execute_after_game_end (s : GameState) (b pid : Nat) (p : Proposal)
    (hended : is_game_active s b = .ok false)
    (hp : s.proposals pid = some p) (hb : p.end_block < b) (hex : p.executed = false)
    (hpass : p.votes_against < p.votes_for)
    (hfit : s.dao_scores p.creator + 50 < U64CAP)
    (hcl : s.nft_claimed p.creator = none) :
    ∃ s1, execute_proposal s b pid = .ok s1 ∧
      get_player_score s1 p.creator = get_player_score s p.creator + 50 ∧
      ∃ s2, claim_nft_reward s1 p.creator b = .ok s2 := by
  refine ⟨_, execute_proposal_success hp hb hex hpass hfit, ?_, ?_⟩
  · show (if p.creator = p.creator then s.dao_scores p.creator + 50
      else s.dao_scores p.creator) = _
    rw [if_pos rfl]
    rfl
  · refine ⟨_, claim_nft_reward_success (s := { s with
      proposals := fun q => if q = pid then some { p with executed := true }
        else s.proposals q
      dao_scores := fun a => if a = p.creator then s.dao_scores p.creator + 50
        else s.dao_scores a }) hended hcl ?_⟩
    show 0 < (if p.creator = p.creator then s.dao_scores p.creator + 50 else _)
    rw [if_pos rfl]
    omega

/-- Witness for C9 on a sample state whose game has ended. -/
theorem claim_C9_witness :
    ∃ s1, execute_proposal exState 101 1 = .ok s1 ∧
      get_player_score s1 exProposal.creator = get_player_score exState exProposal.creator + 50 ∧
      ∃ s2, claim_nft_reward s1 exProposal.creator 101 = .ok s2 :=
  claim_C9_execute_after_game_end exState 101 1 exProposal (by rfl) (by rfl) (by decide)
    (by rfl) (by decide) (by decide) (by rfl)

/-- C2: claim_reward fails with gameStillActive whenever the game is
active, with alreadyClaimed when the caller already claimed, and with
noScore when the caller's score is 0; with the game ended, no prior claim
and a positive score it always succeeds (the eligibility predicate is a
stub returning true); and after one success every later attempt by the
same caller, at any non-earlier block and after any further operations,
fails with alreadyClaimed. -/
theorem claim_C2_reward_gate :
    (∀ (s : GameState) (caller b : Nat),
      is_game_active s b = .ok true →
      claim_nft_reward s caller b = .error .gameStillActive) ∧
    (∀ (s : GameState) (caller b : Nat) (x : Bool),
      is_game_active s b = .ok false → s.nft_claimed caller = some x →
      claim_nft_reward s caller b = .error .alreadyClaimed) ∧
    (∀ (s : GameState) (caller b : Nat),
      is_game_active s b = .ok false → s.nft_claimed caller = none →
      s.dao_scores caller = 0 → claim_nft_reward s caller b = .error .noScore) ∧
    (∀ (s : GameState) (caller b : Nat),
      is_game_active s b = .ok false → s.nft_claimed caller = none →
      0 < s.dao_scores caller →
      claim_nft_reward s caller b = .ok { s with
        nft_claimed := fun a => if a = caller then some true else s.nft_claimed a }) ∧
    (∀ (s : GameState) (caller b : Nat) (s1 : GameState),
      claim_nft_reward s caller b = .ok s1 →
      ∀ (ops : List Op) (b2 : Nat), b ≤ b2 →
        claim_nft_reward (run s1 ops) caller b2 = .error .alreadyClaimed) := by
  refine ⟨?_, ?_, ?_, ?_, ?_⟩
  · intro s caller b hact
    unfold claim_nft_reward
    rw [hact]
    dsimp only
    rw [if_pos rfl]
  · intro s caller b x hend hcl
    unfold claim_nft_reward
    rw [hend]
    dsimp only
    rw [if_neg Bool.false_ne_true, hcl]
  · intro s caller b hend hcl hsc
    unfold claim_nft_reward
    rw [hend]
    dsimp only
    rw [if_neg Bool.false_ne_true, hcl]
    dsimp only
    rw [if_neg (by rw [hsc]; exact lt_irrefl 0)]
  · intro s caller b hend hcl hsc
    exact claim_nft_reward_success hend hcl hsc
  · intro s caller b s1 hok ops b2 hb2
    obtain ⟨hend, hcl, -, hs1⟩ := claim_nft_reward_ok hok
    obtain ⟨hge, hdec⟩ := is_game_active_ok_inv hend
    have hgt : ¬ b ≤ s.game_start_block + s.game_duration_blocks := by
      intro hle
      rw [decide_eq_true hle] at hdec
      cases hdec
    have hclaimed : (run s1 ops).nft_claimed caller = some true := by
      refine nft_claimed_run s1 ops caller true ?_
      rw [hs1]
      show (if caller = caller then some true else s.nft_claimed caller) = some true
      rw [if_pos rfl]
    have hge1 : gameEndBlock (run s1 ops) =
        .ok (s.game_start_block + s.game_duration_blocks) := by
      rw [gameEndBlock_run s1 ops]
      rw [hs1]
      exact hge
    unfold claim_nft_reward is_game_active
    rw [hge1]
    dsimp only
    rw [if_neg (by
      rw [decide_eq_false (by omega : ¬ b2 ≤ s.game_start_block + s.game_duration_blocks)]
      exact Bool.false_ne_true), hclaimed]

/-- Witness for C2: all five conjuncts at concrete sample states. -/
theorem claim_C2_witness :
    claim_nft_reward exState 7 5 = .error .gameStillActive ∧
    claim_nft_reward exStateClaimed 7 101 = .error .alreadyClaimed ∧
    claim_nft_reward exState 7 101 = .error .noScore ∧
    claim_nft_reward exStateScored 7 101 = .ok { exStateScored with
      nft_claimed := fun a => if a = 7 then some true
        else exStateScored.nft_claimed a } ∧
    claim_nft_reward (run { exStateScored with
      nft_claimed := fun a => if a = 7 then some true
        else exStateScored.nft_claimed a } []) 7 102 = .error .alreadyClaimed :=
  ⟨claim_C2_reward_gate.1 exState 7 5 (by rfl),
   claim_C2_reward_gate.2.1 exStateClaimed 7 101 true (by rfl) (by rfl),
   claim_C2_reward_gate.2.2.1 exState 7 101 (by rfl) (by rfl) (by rfl),
   claim_C2_reward_gate.2.2.2.1 exStateScored 7 101 (by rfl) (by rfl) (by decide),
   claim_C2_reward_gate.2.2.2.2 exStateScored 7 101 _ (by rfl) [] 102 (by decide)⟩

/-- C1 counterexample: an accepted vote with stake 0.3 UNIT adds 0 (not
the claimed fallback 1) to the voter's score, and an accepted vote whose
stake quotient does not fit u64 adds 2 (not 1). -/
theorem claim_C1_cex :
    (vote exState 8 1 300000000000000000 1 true).map (fun s => get_player_score s 8) =
      .ok 0 ∧
    (vote exState 8 1 (U64CAP * UNIT) 1 true).map (fun s => get_player_score s 8) =
      .ok 2 ∧
    (0 : Nat) ≠ 1 ∧ (2 : Nat) ≠ 1 :=
  ⟨rfl, rfl, by decide, by decide⟩

/-- C1 amended: for every accepted vote the caller's score increases by
floor(stake / UNIT) * 2 whenever the quotient fits u64 — in particular a
stake below one UNIT adds 0, not 1 — and by 2 (the fallback dao_points of
1 times the voting multiplier) when the quotient does not fit u64. -/
theorem claim_C1_vote_score_delta (s : GameState) (caller b pay pid : Nat) (vf : Bool)
    (s1 : GameState) (h : vote s caller b pay pid vf = .ok s1) :
    get_player_score s1 caller = get_player_score s caller +
      (if pay / UNIT < U64CAP then pay / UNIT * 2 else 2) := by
  obtain ⟨p, -, -, -, -, -, -, -, -, hs⟩ := vote_ok_inv h
  subst hs
  show (if caller = caller then s.dao_scores caller + voteDaoPoints pay * 2
    else s.dao_scores caller) = _
  rw [if_pos rfl]
  unfold voteDaoPoints
  by_cases hq : pay / UNIT < U64CAP
  · rw [if_pos hq, if_pos hq]
    rfl
  · rw [if_neg hq, if_neg hq, Nat.one_mul]
    rfl

/-- Witness for C1 amended at a concrete accepted 5-stake vote. -/
theorem claim_C1_witness :
    get_player_score exS1 8 = get_player_score exState 8 +
      (if 5 / UNIT < U64CAP then 5 / UNIT * 2 else 2) :=
  claim_C1_vote_score_delta exState 8 1 5 1 true exS1 (by rfl)

/-- C4 counterexample: after an accepted vote, a second vote call by the
same voter on the same proposal carrying zero payment fails with
zeroStake, not with alreadyVoted as claimed. -/
theorem claim_C4_cex :
    vote (run (initGame 100 9 0) exOpsVote) 8 2 0 1 true = .error .zeroStake ∧
    Err.zeroStake ≠ Err.alreadyVoted :=
  ⟨rfl, by decide⟩

/-- C4 amended: at most one vote is ever accepted per (proposal, voter)
pair: after an accepted vote, every subsequent vote call by the same voter
on the same proposal fails and leaves the state (tallies, vote table,
scores) unchanged; and whenever the later call passes the earlier checks
(game active, positive stake, stored proposal whose window contains the
block) the error is precisely alreadyVoted. -/
theorem claim_C4_single_vote (s : GameState) (caller b pay pid : Nat) (vf : Bool)
    (s1 : GameState) (hacc : vote s caller b pay pid vf = .ok s1)
    (ops : List Op) (b2 pay2 : Nat) (vf2 : Bool) :
    (∃ e, vote (run s1 ops) caller b2 pay2 pid vf2 = .error e) ∧
    step (run s1 ops) (Op.voteOp caller b2 pay2 pid vf2) = run s1 ops ∧
    (∀ p2, (run s1 ops).proposals pid = some p2 →
      is_game_active (run s1 ops) b2 = .ok true → 0 < pay2 →
      p2.start_block ≤ b2 → b2 ≤ p2.end_block →
      vote (run s1 ops) caller b2 pay2 pid vf2 = .error .alreadyVoted) := by
  obtain ⟨p, -, -, -, -, -, -, -, -, hs⟩ := vote_ok_inv hacc
  have hrec : lookupVote s1.user_votes pid caller = some
      { voter := caller, proposal_id := pid, vote_for := vf
        stake_amount := pay, block_number := b } := by
    rw [hs]
    exact lookupVote_setVote_self s.user_votes pid caller _
  obtain ⟨v1, hv1⟩ := user_votes_run s1 ops pid caller _ hrec
  have herr : ∃ e, vote (run s1 ops) caller b2 pay2 pid vf2 = .error e := by
    cases hv : vote (run s1 ops) caller b2 pay2 pid vf2 with
    | error e => exact ⟨e, rfl⟩
    | ok s2 =>
      obtain ⟨-, -, -, -, -, -, hnone, -, -, -⟩ := vote_ok_inv hv
      rw [hv1] at hnone
      cases hnone
  refine ⟨herr, ?_, ?_⟩
  · obtain ⟨e, he⟩ := herr
    exact step_err (show applyOp (run s1 ops) (Op.voteOp caller b2 pay2 pid vf2) =
      .error e from he)
  · intro p2 hp2 hact hpay hstart hend
    unfold vote
    rw [hact]
    dsimp only
    rw [if_pos rfl, if_pos hpay, hp2]
    dsimp only
    rw [if_pos hstart, if_pos hend, hv1]

/-- Witness for C4 amended after a concrete accepted vote. -/
theorem claim_C4_witness :
    (∃ e, vote (run exS1 []) 8 2 1 1 true = .error e) ∧
    step (run exS1 []) (Op.voteOp 8 2 1 1 true) = run exS1 [] ∧
    (∀ p2, (run exS1 []).proposals 1 = some p2 →
      is_game_active (run exS1 []) 2 = .ok true → 0 < (1 : Nat) →
      p2.start_block ≤ 2 → 2 ≤ p2.end_block →
      vote (run exS1 []) 8 2 1 1 true = .error .alreadyVoted) :=
  claim_C4_single_vote exState 8 1 5 1 true exS1 (by rfl) [] 2 1 true

end QuantumDao
